import Mathlib

/-!
Shallow embedding of the locale-loading and schema-resolution core of
`leptos_i18n_macro` (`src/load_locales/locale.rs`), together with models of
the collaborators it uses (`Key`/`KeyPath`, the value AST `ParsedValue`, the
warning channel and the error enum), which are part of the repository but not
among the provided sources and are therefore modelled from the specification.

Conventions:
- Rust `HashMap<Rc<Key>, V>` is modelled as an association list
  `List (Key × V)`; the list order models the (unspecified) iteration order
  of the hash map, and lookups return the first matching entry.
- Rust strings are modelled as `List Char` (`CStr`).
- Rust `PathBuf` is modelled as a list of path components (`PathB`), with
  `push`/`pop`/`set_extension` following `std::path` semantics for relative
  arguments (an absolute `push` argument, which would replace the whole
  buffer, is outside the modelled input range).
- In-place mutation is modelled by explicit state passing: each operation
  returns the final states of everything the Rust code mutates, and the
  warnings emitted through the global warning channel are returned as a list.
- A Rust panic (`unwrap` on an empty iterator) is modelled by `Option.none`
  on the panicking function's result.
-/

set_option autoImplicit false

namespace LeptosI18n

/-- A Rust string, modelled as its character list. -/
abbrev CStr := List Char

/-- `Key` (from `key.rs`, not among the sources). Modelled from the spec:
"an interned, content-comparable, shared identifier (a name string)";
equality and hashing are by name, so the `Rc` sharing is erased. -/
structure Key where
  name : CStr
  deriving DecidableEq, Repr

/-- `KeyPath` (from `key.rs`, not among the sources). Modelled from the spec:
"a mutable stack of Keys (optionally prefixed by a namespace Key)"; the
namespace segment is set once at construction. -/
structure KeyPath where
  ns : Option Key
  path : List Key
  deriving DecidableEq, Repr

/-- `KeyPath::new(namespace)`: empty key stack with an optional namespace. -/
def KeyPath.new (ns : Option Key) : KeyPath := ⟨ns, []⟩

/-- `KeyPath::push_key`: push a key segment on top of the stack. -/
def KeyPath.push_key (kp : KeyPath) (k : Key) : KeyPath :=
  ⟨kp.ns, kp.path ++ [k]⟩

/-- `KeyPath::pop_key`: pop the top key segment (no-op on an empty stack). -/
def KeyPath.pop_key (kp : KeyPath) : KeyPath :=
  ⟨kp.ns, kp.path.dropLast⟩

mutual
/-- `ParsedValue` (from `parsed_value.rs`, not among the sources). Modelled
from the spec: "one parsed translation entry: literal text (possibly
containing interpolation placeholders), a nested subtree, a plural-form
aggregate, or an explicit `inherit from default locale` marker". Leaf-like
variants (literal text, interpolations, plurals) are collapsed into `vLeaf`
carrying the optional set of interpolation keys the leaf requires, which is
the only attribute of a leaf this part of the system observes; `vDefault` is
the explicit inherit-from-default marker; `vSubkeys` carries a nested
locale-shaped subtree, as witnessed by `Locale::get_value_at` recursing into
it with `Locale` methods. -/
inductive ParsedValue where
  | vDefault : ParsedValue
  | vLeaf : Option (List Key) → ParsedValue
  | vSubkeys : Locale → ParsedValue

/-- `Locale` (struct in `locale.rs`): one locale's (or one locale's one
namespace's) parsed tree: `top_locale_name`, `name`, and the map of keys,
modelled as an association list. -/
inductive Locale where
  | mk : Key → Key → List (Key × ParsedValue) → Locale
end

/-- Field `Locale.top_locale_name`. -/
def Locale.top_locale_name : Locale → Key
  | .mk t _ _ => t

/-- Field `Locale.name`. -/
def Locale.name : Locale → Key
  | .mk _ n _ => n

/-- Field `Locale.keys`. -/
def Locale.keys : Locale → List (Key × ParsedValue)
  | .mk _ _ ks => ks

/-- First-match lookup in an association list, modelling `HashMap::get`. -/
def lookupAssoc {α : Type} : List (Key × α) → Key → Option α
  | [], _ => none
  | (k, v) :: rest, key => if k = key then some v else lookupAssoc rest key

/-- Replace the value of the first entry with the given key, modelling a
write through `HashMap::get_mut`. -/
def updateAssoc {α : Type} : List (Key × α) → Key → α → List (Key × α)
  | [], _, _ => []
  | (k, v) :: rest, key, v' =>
    if k = key then (k, v') :: rest else (k, v) :: updateAssoc rest key v'

/-- `LocaleValue` (enum in `locale.rs`): the classified shape of one schema
entry: a leaf `value` with an optional interpolation-key set, or `subkeys`
carrying the per-locale subtree list and the nested schema. The
`HashSet<InterpolateKey>` is modelled as a `List Key`. -/
inductive LocaleValue where
  | value : Option (List Key) → LocaleValue
  | subkeys : List Locale → List (Key × LocaleValue) → LocaleValue

/-- `BuildersKeysInner` (in `locale.rs`): the schema map from `Key` to
`LocaleValue`, modelled as an association list. -/
abbrev BuildersKeysInner := List (Key × LocaleValue)

/-- `Warning` (from `warning.rs`, not among the sources). Modelled from the
spec: the two non-fatal diagnostics, each carrying the locale identity and
the `KeyPath` of the offending entry, exactly as constructed at the
`emit_warning` call sites in `Locale::merge`. -/
inductive Warning where
  | missingKey (locale : Key) (key_path : KeyPath) : Warning
  | surplusKey (locale : Key) (key_path : KeyPath) : Warning
  deriving DecidableEq, Repr

/-- A path buffer (`std::path::PathBuf`), modelled as its list of
components, each a string. Only relative paths arise in the modelled code
paths. -/
abbrev PathB := List CStr

/-- A decoding failure from the format-specific deserializer (the
`SerdeError` of `error.rs`, not among the sources); its payload is opaque to
this part of the system and is modelled as a message string. -/
structure SerdeError where
  msg : CStr
  deriving DecidableEq, Repr

/-- `Error` (from `error.rs`, not among the sources). Modelled from the
spec's error taxonomy (§7): file-not-found and deserialization failures
carrying the attempted path, the structural-default error carrying the
`KeyPath` of the offending entry, and the fatal shape mismatch carrying the
`KeyPath` where the shapes diverge. -/
inductive Err where
  | localeFileNotFound (path : PathB) : Err
  | localeFileDeser (path : PathB) (e : SerdeError) : Err
  | explicitDefaultInDefault (kp : KeyPath) : Err
  | shapeMismatch (kp : KeyPath) : Err
  deriving DecidableEq, Repr

/-! ### Path derivation (model of the `std::path` operations used) -/

/-- Split a string at every occurrence of a separator character. -/
def splitOnChar (sep : Char) : CStr → List CStr
  | [] => [[]]
  | c :: rest =>
    if c = sep then [] :: splitOnChar sep rest
    else
      match splitOnChar sep rest with
      | [] => [[c]]
      | r :: rs => (c :: r) :: rs

/-- `PathBuf::push` for a relative argument: append the argument's non-empty
components (splitting on the path separator). -/
def pathPush (p : PathB) (s : CStr) : PathB :=
  p ++ (splitOnChar '/' s).filter (fun c => c ≠ [])

/-- `PathBuf::pop`: drop the last component. -/
def pathPop (p : PathB) : PathB := p.dropLast

/-- Split a string at the LAST occurrence of a separator: `some (pre, post)`
with the separator between them, or `none` if the separator is absent. -/
def splitLast (sep : Char) : CStr → Option (CStr × CStr)
  | [] => none
  | c :: rest =>
    match splitLast sep rest with
    | some (pre, post) => some (c :: pre, post)
    | none => if c = sep then some ([], rest) else none

/-- The file stem of one path component, per `std::path` rules: everything
before the last `'.'`, except that a leading `'.'` with no later dot does
not begin an extension. -/
def fileStem (c : CStr) : CStr :=
  match splitLast '.' c with
  | some (pre, _) => if pre = [] then c else pre
  | none => c

/-- `PathBuf::set_extension` (with a non-empty extension): replace the final
component's extension — everything after its last `'.'` — by the given one,
or append `'.' ++ ext` if it has none; a no-op on an empty path. -/
def setExtension (p : PathB) (ext : CStr) : PathB :=
  match p.getLast? with
  | none => p
  | some c => p.dropLast ++ [fileStem c ++ '.' :: ext]

/-- The file path derived for a locale file in flat mode
(`LocalesOrNamespaces::new`, locales branch): push the locale name, then set
the extension to the configured format. -/
def flatFilePath (base : PathB) (locale : CStr) (ext : CStr) : PathB :=
  setExtension (pathPush base locale) ext

/-- The file path derived for a locale file in namespaced mode
(`Namespace::new`): push the locale name, push the namespace name, then set
the extension to the configured format. -/
def nsFilePath (base : PathB) (locale : CStr) (nsName : CStr) (ext : CStr) :
    PathB :=
  setExtension (pathPush (pathPush base locale) nsName) ext

/-- Render a path buffer as the string of its components joined by `'/'`. -/
def renderPath (p : PathB) : CStr :=
  match p with
  | [] => []
  | [c] => c
  | c :: rest => c ++ '/' :: renderPath rest

/-- The spec's claimed flat-mode path formula, following the spec's words
(`{base}/{locale}.{ext}`) for comparison against `flatFilePath`. -/
def specFlatPath (base : PathB) (locale : CStr) (ext : CStr) : CStr :=
  renderPath base ++ '/' :: (locale ++ '.' :: ext)

/-- The spec's claimed namespaced-mode path formula, following the spec's
words (`{base}/{locale}/{namespace}.{ext}`) for comparison against
`nsFilePath`. -/
def specNsPath (base : PathB) (locale : CStr) (nsName : CStr) (ext : CStr) :
    CStr :=
  renderPath base ++ '/' :: (locale ++ '/' :: (nsName ++ '.' :: ext))

/-! ### `get_value_at` -/

/-- `Locale::get_value_at`: look a slice of path segments up in a locale
tree; empty paths and paths descending through a non-subtree value yield
`none`. -/
def Locale.get_value_at (l : Locale) (path : List Key) : Option ParsedValue :=
  match path with
  | [] => none
  | [key] => lookupAssoc l.keys key
  | key :: rest =>
    match lookupAssoc l.keys key with
    | none => none
    | some v =>
      match v with
      | ParsedValue.vSubkeys subkeys => subkeys.get_value_at rest
      | _ => none

/-- `Namespace` (struct in `locale.rs`): a namespace key plus the per-locale
trees parsed for it. -/
structure Namespace where
  key : Key
  locales : List Locale

/-- `LocalesOrNamespaces` (enum in `locale.rs`): the whole-project
container, flat or namespaced. -/
inductive LocalesOrNamespaces where
  | nameSpaces : List Namespace → LocalesOrNamespaces
  | locales : List Locale → LocalesOrNamespaces

/-- `LocalesOrNamespaces::get_value_at`: dispatch on namespace presence in
the path versus the container's mode, find the locale (and namespace), then
delegate to `Locale::get_value_at`. -/
def LocalesOrNamespaces.get_value_at (self : LocalesOrNamespaces)
    (top_locale : Key) (path : KeyPath) : Option ParsedValue :=
  let locale : Option Locale :=
    match path.ns, self with
    | none, LocalesOrNamespaces.nameSpaces _ => none
    | some _, LocalesOrNamespaces.locales _ => none
    | none, LocalesOrNamespaces.locales ls =>
      ls.find? (fun locale => locale.name = top_locale)
    | some target_namespace, LocalesOrNamespaces.nameSpaces namespaces =>
      match namespaces.find? (fun n => n.key = target_namespace) with
      | none => none
      | some n => n.locales.find? (fun locale => locale.name = top_locale)
  match locale with
  | none => none
  | some locale => locale.get_value_at path.path

/-! ### Schema construction from the default locale -/

/-- `ParsedValue::reduce` (from `parsed_value.rs`, not among the sources).
Modelled from the spec: "`reduce()` (in-place canonicalization, no error)";
the exact normalization rules are an open external contract (§9, "not
observable from the portion of the system specified here"), modelled as the
identity normalization. -/
def ParsedValue.reduce (v : ParsedValue) : ParsedValue := v

mutual
/-- `ParsedValue::make_locale_value` (from `parsed_value.rs`, not among the
sources). Modelled from the spec (§4.2): a nested subtree is classified as
`subkeys` with a recursively built nested schema (the subtree's own locale
tree seeding the per-locale list a subtree `LocaleValue` owns, §3); any
other node is classified as a leaf `value` carrying the interpolation keys
the leaf requires (none for the inherit-from-default marker, which carries
no value of its own). -/
def ParsedValue.make_locale_value : ParsedValue → LocaleValue
  | .vDefault => .value none
  | .vLeaf i => .value i
  | .vSubkeys sub => .subkeys [sub] sub.make_builder_keys

/-- `Locale::make_builder_keys` (lines 187–195): reduce every value in
place, classify it, and collect the classifications into a schema. -/
def Locale.make_builder_keys : Locale → BuildersKeysInner
  | .mk _ _ ks => makeKeysList ks

/-- The entry loop of `Locale::make_builder_keys` over the key map. -/
def makeKeysList : List (Key × ParsedValue) → BuildersKeysInner
  | [] => []
  | (k, v) :: rest => (k, (ParsedValue.reduce v).make_locale_value) :: makeKeysList rest
end

/-! ### Merge -/

/-- The reverse pass of `Locale::merge` (lines 217–226): for every key of
this locale absent from the schema, push the key onto the `KeyPath` (the
source never pops it) and emit a `SurplusKey` warning with a clone of the
current `KeyPath`. -/
def mergeReverse (selfKeys : List (Key × ParsedValue))
    (schema : BuildersKeysInner) (top_locale : Key) (kp : KeyPath) :
    KeyPath × List Warning :=
  match selfKeys with
  | [] => (kp, [])
  | (k, _) :: rest =>
    match lookupAssoc schema k with
    | some _ => mergeReverse rest schema top_locale kp
    | none =>
      let kp1 := kp.push_key k
      match mergeReverse rest schema top_locale kp1 with
      | (kp2, ws) => (kp2, Warning.surplusKey top_locale kp1 :: ws)

mutual
/-- `ParsedValue::merge` (from `parsed_value.rs`, not among the sources).
Modelled from the spec (§4.3, §6): the delegate confirms the value's shape
matches the schema's classification. A subtree against a `subkeys`
classification recurses into `Locale.merge` for the nested scope and, on
success, appends the merged subtree to the per-locale list the schema entry
owns (§3); a leaf against a leaf classification reconciles the
interpolation-key set — the spec's error taxonomy (§7) names no fatal
outcome for that reconciliation, so it is modelled as accepting with no
schema mutation; a shape divergence is the fatal `shapeMismatch` at the
current `KeyPath`; the explicit inherit-from-default marker stands for the
default locale's own value and is accepted against either classification.
On a fatal error the states at the point of failure are returned, mirroring
the in-place mutation with early return. -/
def ParsedValue.merge (v : ParsedValue) (lv : LocaleValue)
    (default_locale : CStr) (top_locale : Key) (kp : KeyPath) :
    Option Err × ParsedValue × LocaleValue × KeyPath × List Warning :=
  match v, lv with
  | .vDefault, lv => (none, .vDefault, lv, kp, [])
  | .vLeaf i, .value j => (none, .vLeaf i, .value j, kp, [])
  | .vLeaf i, .subkeys locs ks =>
    (some (.shapeMismatch kp), .vLeaf i, .subkeys locs ks, kp, [])
  | .vSubkeys sub, .value j =>
    (some (.shapeMismatch kp), .vSubkeys sub, .value j, kp, [])
  | .vSubkeys sub, .subkeys locs ks =>
    match Locale.merge sub ks default_locale top_locale kp with
    | (some e, sub', ks', kp', ws) =>
      (some e, .vSubkeys sub', .subkeys locs ks', kp', ws)
    | (none, sub', ks', kp', ws) =>
      (none, .vSubkeys sub', .subkeys (locs ++ [sub']) ks', kp', ws)
  termination_by (sizeOf lv, 0)

/-- The forward pass of `Locale::merge` (lines 204–215): iterate the schema
entries; push the key; a key present in this locale is delegated to
`ParsedValue.merge` (receiving `self.name` as its locale argument, line
207), and a fatal delegate error returns immediately — before the pop, per
the `?` on line 207; a key absent from this locale emits a `MissingKey`
warning with the locale identity (the `top_locale` parameter) and a clone
of the current `KeyPath`; then pop the key and continue. -/
def mergeForward (selfKeys : List (Key × ParsedValue)) (selfName : Key)
    (schema : BuildersKeysInner) (default_locale : CStr) (top_locale : Key)
    (kp : KeyPath) :
    Option Err × List (Key × ParsedValue) × BuildersKeysInner × KeyPath ×
      List Warning :=
  match schema with
  | [] => (none, selfKeys, [], kp, [])
  | (k, lv) :: rest =>
    let kp1 := kp.push_key k
    match lookupAssoc selfKeys k with
    | some v =>
      match ParsedValue.merge v lv default_locale selfName kp1 with
      | (err, v', lv', kp2, ws) =>
        let selfKeys' := updateAssoc selfKeys k v'
        match err with
        | some e => (some e, selfKeys', (k, lv') :: rest, kp2, ws)
        | none =>
          match mergeForward selfKeys' selfName rest default_locale
              top_locale kp2.pop_key with
          | (err2, sk2, rest', kp3, ws2) =>
            (err2, sk2, (k, lv') :: rest', kp3, ws ++ ws2)
    | none =>
      let w := Warning.missingKey top_locale kp1
      match mergeForward selfKeys selfName rest default_locale top_locale
          kp1.pop_key with
      | (err2, sk2, rest', kp3, ws2) =>
        (err2, sk2, (k, lv) :: rest', kp3, w :: ws2)
  termination_by (sizeOf schema, 1)

/-- `Locale::merge` (lines 197–229): the forward pass over the schema, then
— only if no fatal error occurred — the reverse pass over this locale's own
keys. Returns the error (if any), the final states of the locale, the
schema and the `KeyPath` cursor, and the warnings emitted in order. -/
def Locale.merge (self : Locale) (schema : BuildersKeysInner)
    (default_locale : CStr) (top_locale : Key) (kp : KeyPath) :
    Option Err × Locale × BuildersKeysInner × KeyPath × List Warning :=
  match self with
  | .mk tln nm selfKeys =>
    match mergeForward selfKeys nm schema default_locale top_locale kp with
    | (some e, sk', schema', kp', ws) =>
      (some e, .mk tln nm sk', schema', kp', ws)
    | (none, sk', schema', kp', ws) =>
      match mergeReverse sk' schema' top_locale kp' with
      | (kp2, ws2) => (none, .mk tln nm sk', schema', kp2, ws ++ ws2)
  termination_by (sizeOf schema, 2)
end

/-! ### Orchestration (`check_locales_inner`) -/

/-- The scan of lines 239–244: the first top-level entry of the default
locale whose value is the explicit inherit-from-default marker. -/
def findDefaultKey : List (Key × ParsedValue) → Option Key
  | [] => none
  | (k, v) :: rest =>
    match v with
    | .vDefault => some k
    | _ => findDefaultKey rest

/-- The per-locale loop of `Locale::check_locales_inner` (lines 250–258):
merge every remaining locale against the schema, threading the schema and
the `KeyPath` cursor, collecting warnings, and propagating the first fatal
error (`?` on line 252). -/
def checkLocalesLoop (rest : List Locale) (schema : BuildersKeysInner)
    (default_locale_name : CStr) (kp : KeyPath) :
    Except Err BuildersKeysInner × List Warning :=
  match rest with
  | [] => (.ok schema, [])
  | locale :: rest' =>
    match Locale.merge locale schema default_locale_name locale.name kp with
    | (some e, _, _, _, ws) => (.error e, ws)
    | (none, _, schema', kp', ws) =>
      match checkLocalesLoop rest' schema' default_locale_name kp' with
      | (r, ws2) => (r, ws ++ ws2)

/-- The body of `Locale::check_locales_inner` once the default locale has
been taken off the slice: reject an explicit default marker among the
default locale's top-level entries (lines 239–244), otherwise build the
schema from the default locale and merge every remaining locale against
it. The merged locale trees themselves (mutated in place in the source,
consumed only by the later code-generation stage) are not part of the
result. -/
def checkLocalesGo (default_locale : Locale) (rest : List Locale)
    (ns : Option Key) : Except Err BuildersKeysInner × List Warning :=
  let kp := KeyPath.new ns
  match findDefaultKey default_locale.keys with
  | some k => (.error (.explicitDefaultInDefault (kp.push_key k)), [])
  | none =>
    checkLocalesLoop rest default_locale.make_builder_keys
      default_locale.name.name kp

/-- `Locale::check_locales_inner` (lines 231–261): the first locale of the
slice is unconditionally taken as the default (`locales.next().unwrap()`);
`none` models the panic of that `unwrap` on an empty slice. -/
def Locale.check_locales_inner (locales : List Locale) (ns : Option Key) :
    Option (Except Err BuildersKeysInner × List Warning) :=
  match locales with
  | [] => none
  | d :: rest => some (checkLocalesGo d rest ns)

/-! ### File loading -/

/-- The file-format extension fixed by the selected format feature
(`FILE_FORMAT`, lines 16–21; `"json"` under the `json_files` feature). -/
def FILE_FORMAT : CStr := ['j', 's', 'o', 'n']

/-- The file system, modelled as a finite map from paths to decode
outcomes: absent entries model `File::open` failures, and present entries
hold the seeded deserialization collaborator's result for that file — a
decode error or the parsed key map. -/
abbrev FileSys := List (PathB × Except SerdeError (List (Key × ParsedValue)))

/-- Path lookup in the modelled file system. -/
def lookupFile : FileSys → PathB → Option (Except SerdeError (List (Key × ParsedValue)))
  | [], _ => none
  | (p, r) :: rest, path => if p = path then some r else lookupFile rest path

/-- `Locale::new` (lines 167–185) with `Locale::de` (lines 160–165): open
the file at the already-derived path; on open failure return
`LocaleFileNotFound` and on decode failure `LocaleFileDeser`, in both cases
carrying the attempted path moved out of the shared buffer
(`std::mem::take(path)`), which leaves the buffer empty; on success the
buffer is untouched and the locale is built with `name` and
`top_locale_name` both the locale key. The namespace argument only seeds
the decode context's `KeyPath` (line 181) and is otherwise unused. Returns
the result together with the final state of the path buffer. -/
def Locale.new (fs : FileSys) (path : PathB) (locale : Key)
    (_ns : Option Key) : Except Err Locale × PathB :=
  match lookupFile fs path with
  | none => (.error (.localeFileNotFound path), [])
  | some (.error e) => (.error (.localeFileDeser path e), [])
  | some (.ok keys) => (.ok (.mk locale locale keys), path)

/-- The per-locale loop of `Namespace::new` (lines 56–68): push the locale
directory and the namespace file name, set the extension, load, then pop
twice; an error propagates immediately through `?`, leaving the buffer in
whatever state `Locale::new` left it. The extension is a parameter
modelling the configured `FILE_FORMAT`. -/
def namespaceLoadLoop (fs : FileSys) (key : Key) (locale_keys : List Key)
    (buf : PathB) (ext : CStr) : Except Err (List Locale) × PathB :=
  match locale_keys with
  | [] => (.ok [], buf)
  | locale :: rest =>
    let buf1 := setExtension (pathPush (pathPush buf locale.name) key.name) ext
    match Locale.new fs buf1 locale (some key) with
    | (.error e, buf2) => (.error e, buf2)
    | (.ok loc, buf2) =>
      match namespaceLoadLoop fs key rest (pathPop (pathPop buf2)) ext with
      | (.error e, buf3) => (.error e, buf3)
      | (.ok locs, buf3) => (.ok (loc :: locs), buf3)

/-- `Namespace::new` (lines 49–70). -/
def Namespace.new (fs : FileSys) (dir : PathB) (key : Key)
    (locale_keys : List Key) (ext : CStr) : Except Err Namespace × PathB :=
  match namespaceLoadLoop fs key locale_keys dir ext with
  | (.error e, buf) => (.error e, buf)
  | (.ok locs, buf) => (.ok ⟨key, locs⟩, buf)

/-- The per-locale loop of the flat branch of `LocalesOrNamespaces::new`
(lines 108–114): push the locale name, set the extension, load, pop once. -/
def flatLoadLoop (fs : FileSys) (locale_keys : List Key) (buf : PathB)
    (ext : CStr) : Except Err (List Locale) × PathB :=
  match locale_keys with
  | [] => (.ok [], buf)
  | locale :: rest =>
    let buf1 := setExtension (pathPush buf locale.name) ext
    match Locale.new fs buf1 locale none with
    | (.error e, buf2) => (.error e, buf2)
    | (.ok loc, buf2) =>
      match flatLoadLoop fs rest (pathPop buf2) ext with
      | (.error e, buf3) => (.error e, buf3)
      | (.ok locs, buf3) => (.ok (loc :: locs), buf3)

/-- The per-namespace loop of `LocalesOrNamespaces::new` (lines 98–105). -/
def namespacesLoop (fs : FileSys) (namespace_keys : List Key)
    (locale_keys : List Key) (buf : PathB) (ext : CStr) :
    Except Err (List Namespace) × PathB :=
  match namespace_keys with
  | [] => (.ok [], buf)
  | nsk :: rest =>
    match Namespace.new fs buf nsk locale_keys ext with
    | (.error e, buf2) => (.error e, buf2)
    | (.ok n, buf2) =>
      match namespacesLoop fs rest locale_keys buf2 ext with
      | (.error e, buf3) => (.error e, buf3)
      | (.ok ns, buf3) => (.ok (n :: ns), buf3)

/-- `ConfigFile` (from `cfg_file.rs`, not among the sources). Modelled from
the spec (§6): the ordered locale list (first = default), the optional
namespace list (presence toggles namespaced mode), and the locales
directory path. -/
structure ConfigFile where
  locales : List Key
  name_spaces : Option (List Key)
  locales_dir : CStr

/-- `LocalesOrNamespaces::new` (lines 94–117): push the configured locales
directory onto the manifest-dir buffer (line 96, never popped), then load
every namespace, or every flat locale file. -/
def LocalesOrNamespaces.new (fs : FileSys) (manifest_dir : PathB)
    (cfg : ConfigFile) (ext : CStr) :
    Except Err LocalesOrNamespaces × PathB :=
  let base := pathPush manifest_dir cfg.locales_dir
  match cfg.name_spaces with
  | some nss =>
    match namespacesLoop fs nss cfg.locales base ext with
    | (.error e, buf) => (.error e, buf)
    | (.ok ns, buf) => (.ok (.nameSpaces ns), buf)
  | none =>
    match flatLoadLoop fs cfg.locales base ext with
    | (.error e, buf) => (.error e, buf)
    | (.ok ls, buf) => (.ok (.locales ls), buf)

/-! ### Schema shape

The observable shape of a schema: its key set, each entry's leaf-versus-
subtree classification, and each leaf's interpolation-key requirement,
recursively. The per-locale tree lists owned by subtree entries (which grow
during merging, by design) are not part of the shape. -/

/-- The shape of one schema entry. -/
inductive SchemaShape where
  | leaf : Option (List Key) → SchemaShape
  | node : List (Key × SchemaShape) → SchemaShape

mutual
/-- The shape of one `LocaleValue`. -/
def LocaleValue.shape : LocaleValue → SchemaShape
  | .value i => .leaf i
  | .subkeys _ ks => .node (schemaShape ks)

/-- The shape of a schema: every entry's key with its shape, in order. -/
def schemaShape : List (Key × LocaleValue) → List (Key × SchemaShape)
  | [] => []
  | (k, lv) :: rest => (k, lv.shape) :: schemaShape rest
end

/-- A string that `PathBuf::push` treats as a single normal path component:
non-empty and free of the path separator. -/
def singleComp (s : CStr) : Prop := s ≠ [] ∧ '/' ∉ s

/-- Deciding `singleComp` on concrete strings. -/
instance (s : CStr) : Decidable (singleComp s) :=
  inferInstanceAs (Decidable (s ≠ [] ∧ '/' ∉ s))

/-! ### Concrete instances used by counterexamples and witnesses -/

/-- Concrete key `en`. -/
def kEn : Key := ⟨['e', 'n']⟩

/-- Concrete key `fr`. -/
def kFr : Key := ⟨['f', 'r']⟩

/-- Concrete key `de`. -/
def kDe : Key := ⟨['d', 'e']⟩

/-- Concrete key `a`. -/
def kA : Key := ⟨['a']⟩

/-- Concrete key `b`. -/
def kB : Key := ⟨['b']⟩

/-- Concrete key `c`. -/
def kC : Key := ⟨['c']⟩

/-- Concrete key `s`. -/
def kS : Key := ⟨['s']⟩

/-- Concrete key `k1`. -/
def k1 : Key := ⟨['k', '1']⟩

/-- Concrete key `k2`. -/
def k2 : Key := ⟨['k', '2']⟩

/-- The default locale's name string used by concrete merges. -/
def enName : CStr := ['e', 'n']

/-! ## Helper lemmas -/

mutual
/-- The merge delegate returns a schema entry of unchanged shape. -/
theorem parsedValueMergeShape (v : ParsedValue) (lv : LocaleValue)
    (dl : CStr) (tl : Key) (kp : KeyPath) :
    (ParsedValue.merge v lv dl tl kp).2.2.1.shape = lv.shape := by
  cases v with
  | vDefault => simp [ParsedValue.merge]
  | vLeaf i =>
    cases lv with
    | value j => simp [ParsedValue.merge, LocaleValue.shape]
    | subkeys locs ks => simp [ParsedValue.merge, LocaleValue.shape]
  | vSubkeys sub =>
    cases lv with
    | value j => simp [ParsedValue.merge, LocaleValue.shape]
    | subkeys locs ks =>
      have h := localeMergeShape sub ks dl tl kp
      rcases hm : Locale.merge sub ks dl tl kp with ⟨err, sub', ks', kp', ws⟩
      rw [hm] at h
      cases err <;> simp [ParsedValue.merge, hm, LocaleValue.shape, h]
  termination_by (sizeOf lv, 0)

/-- The forward pass of the merge returns a schema of unchanged shape. -/
theorem mergeForward_shape (sk : List (Key × ParsedValue)) (nm : Key)
    (schema : BuildersKeysInner) (dl : CStr) (tl : Key) (kp : KeyPath) :
    schemaShape (mergeForward sk nm schema dl tl kp).2.2.1
      = schemaShape schema := by
  cases schema with
  | nil => simp [mergeForward]
  | cons hd rest =>
    rcases hd with ⟨k, lv⟩
    cases hl : lookupAssoc sk k with
    | none =>
      have ih := mergeForward_shape sk nm rest dl tl (kp.push_key k).pop_key
      rcases hm : mergeForward sk nm rest dl tl (kp.push_key k).pop_key with
        ⟨err2, sk2, rest', kp3, ws2⟩
      rw [hm] at ih
      simp [mergeForward, hl, hm, schemaShape, ih]
    | some v =>
      have hv := parsedValueMergeShape v lv dl nm (kp.push_key k)
      rcases hpm : ParsedValue.merge v lv dl nm (kp.push_key k) with
        ⟨err, v', lv', kp2, ws⟩
      rw [hpm] at hv
      cases err with
      | some e => simp [mergeForward, hl, hpm, schemaShape, hv]
      | none =>
        have ih := mergeForward_shape (updateAssoc sk k v') nm rest dl tl
          kp2.pop_key
        rcases hm : mergeForward (updateAssoc sk k v') nm rest dl tl
            kp2.pop_key with ⟨err2, sk2, rest', kp3, ws2⟩
        rw [hm] at ih
        simp [mergeForward, hl, hpm, hm, schemaShape, hv, ih]
  termination_by (sizeOf schema, 1)

/-- One whole merge of a locale against the schema returns a schema of
unchanged shape. -/
theorem localeMergeShape (self : Locale) (schema : BuildersKeysInner)
    (dl : CStr) (tl : Key) (kp : KeyPath) :
    schemaShape (Locale.merge self schema dl tl kp).2.2.1
      = schemaShape schema := by
  rcases self with ⟨tln, nm, selfKeys⟩
  have h := mergeForward_shape selfKeys nm schema dl tl kp
  rcases hm : mergeForward selfKeys nm schema dl tl kp with
    ⟨err, sk', schema', kp', ws⟩
  rw [hm] at h
  cases err with
  | some e => simp [Locale.merge, hm, h]
  | none =>
    rcases hr : mergeReverse sk' schema' tl kp' with ⟨kp2, ws2⟩
    simp [Locale.merge, hm, hr, h]
  termination_by (sizeOf schema, 2)
end

/-- The shape listing preserves the key list. -/
theorem schemaShape_keys (s : List (Key × LocaleValue)) :
    (schemaShape s).map Prod.fst = s.map Prod.fst := by
  induction s with
  | nil => simp [schemaShape]
  | cons hd rest ih => rcases hd with ⟨k, lv⟩; simp [schemaShape, ih]

/-- If the default-marker scan finds a key, that key holds the marker. -/
theorem findDefaultKey_mem (l : List (Key × ParsedValue)) (k : Key)
    (h : findDefaultKey l = some k) : (k, ParsedValue.vDefault) ∈ l := by
  induction l with
  | nil => simp [findDefaultKey] at h
  | cons hd rest ih =>
    rcases hd with ⟨k', v⟩
    cases v with
    | vDefault =>
      simp [findDefaultKey] at h
      simp [h]
    | vLeaf i =>
      simp [findDefaultKey] at h
      exact List.mem_cons_of_mem _ (ih h)
    | vSubkeys sub =>
      simp [findDefaultKey] at h
      exact List.mem_cons_of_mem _ (ih h)

/-- If some entry holds the default marker, the scan finds one. -/
theorem findDefaultKey_isSome (l : List (Key × ParsedValue)) (k : Key)
    (h : (k, ParsedValue.vDefault) ∈ l) : (findDefaultKey l).isSome := by
  induction l with
  | nil => simp at h
  | cons hd rest ih =>
    rcases hd with ⟨k', v⟩
    cases v with
    | vDefault => simp [findDefaultKey]
    | vLeaf i =>
      rcases List.mem_cons.mp h with h1 | h2
      · exact absurd (congrArg Prod.snd h1) (by simp)
      · simp [findDefaultKey]; exact ih h2
    | vSubkeys sub =>
      rcases List.mem_cons.mp h with h1 | h2
      · exact absurd (congrArg Prod.snd h1) (by simp)
      · simp [findDefaultKey]; exact ih h2

/-- Splitting a separator-free string yields the string itself. -/
theorem splitOnChar_no_sep (sep : Char) (s : CStr) (h : sep ∉ s) :
    splitOnChar sep s = [s] := by
  induction s with
  | nil => simp [splitOnChar]
  | cons c rest ih =>
    simp at h
    simp [splitOnChar, Ne.symm h.1, ih h.2]

/-- Pushing a single normal component appends exactly that component. -/
theorem pathPush_single (p : PathB) (s : CStr) (h : singleComp s) :
    pathPush p s = p ++ [s] := by
  rcases h with ⟨hne, hsep⟩
  simp [pathPush, splitOnChar_no_sep '/' s hsep, hne]

/-- A separator-free string has no last-separator split. -/
theorem splitLast_none (sep : Char) (s : CStr) (h : sep ∉ s) :
    splitLast sep s = none := by
  induction s with
  | nil => simp [splitLast]
  | cons c rest ih =>
    simp at h
    simp [splitLast, ih h.2, Ne.symm h.1]

/-- A dot-free component is its own file stem. -/
theorem fileStem_no_dot (c : CStr) (h : '.' ∉ c) : fileStem c = c := by
  simp [fileStem, splitLast_none '.' c h]

/-- Setting the extension on a path with a last component replaces only
that component. -/
theorem setExtension_concat (p : PathB) (c : CStr) (ext : CStr) :
    setExtension (p ++ [c]) ext = p ++ [fileStem c ++ '.' :: ext] := by
  simp [setExtension]

/-- Rendering after appending one component appends `'/'` and it. -/
theorem renderPath_concat (p : PathB) (c : CStr) (h : p ≠ []) :
    renderPath (p ++ [c]) = renderPath p ++ '/' :: c := by
  induction p with
  | nil => simp at h
  | cons d rest ih =>
    cases rest with
    | nil => simp [renderPath]
    | cons d' rest' =>
      have ih' := ih (by simp)
      simp only [List.cons_append] at ih' ⊢
      simp only [renderPath]
      rw [ih']
      simp

/-- The per-locale loading loop of `Namespace::new` restores the buffer on
success and leaves it empty (its contents moved into the error) on
failure. -/
theorem namespaceLoadLoop_buffer (fs : FileSys) (key : Key)
    (names : List Key) (buf : PathB) (ext : CStr)
    (hkey : singleComp key.name)
    (hnames : ∀ k ∈ names, singleComp k.name) :
    (∀ locs buf', namespaceLoadLoop fs key names buf ext = (.ok locs, buf') →
      buf' = buf)
  ∧ (∀ e buf', namespaceLoadLoop fs key names buf ext = (.error e, buf') →
      buf' = []) := by
  induction names generalizing buf with
  | nil =>
    refine ⟨?_, ?_⟩ <;> intro x buf' h <;> simp [namespaceLoadLoop] at h
    exact h.2.symm
  | cons locale rest ih =>
    have hl := hnames locale (List.mem_cons_self _ _)
    have hrest : ∀ k ∈ rest, singleComp k.name :=
      fun k hk => hnames k (List.mem_cons_of_mem _ hk)
    have hbuf1 : setExtension (pathPush (pathPush buf locale.name) key.name) ext
        = (buf ++ [locale.name]) ++ [fileStem key.name ++ '.' :: ext] := by
      rw [pathPush_single _ _ hl, pathPush_single _ _ hkey, setExtension_concat]
    have hpop : pathPop (pathPop ((buf ++ [locale.name]) ++
        [fileStem key.name ++ '.' :: ext])) = buf := by
      simp [pathPop]
    refine ⟨?_, ?_⟩ <;> intro x buf' h <;>
      simp only [namespaceLoadLoop, Locale.new, hbuf1, hpop] at h
    · cases hf : lookupFile fs ((buf ++ [locale.name]) ++
          [fileStem key.name ++ '.' :: ext]) with
      | none => rw [hf] at h; simp at h
      | some r =>
        rw [hf] at h
        cases r with
        | error e => simp at h
        | ok keys =>
          simp only at h
          rw [hpop] at h
          cases hrec : namespaceLoadLoop fs key rest buf ext with
          | mk r2 buf2 =>
            rw [hrec] at h
            cases r2 with
            | error e => simp at h
            | ok locs2 =>
              simp at h
              obtain ⟨h1, h2⟩ := h
              subst h2
              exact (ih buf hrest).1 locs2 buf2 hrec
    · cases hf : lookupFile fs ((buf ++ [locale.name]) ++
          [fileStem key.name ++ '.' :: ext]) with
      | none => rw [hf] at h; simp at h; exact h.2
      | some r =>
        rw [hf] at h
        cases r with
        | error e => simp at h; exact h.2
        | ok keys =>
          simp only at h
          rw [hpop] at h
          cases hrec : namespaceLoadLoop fs key rest buf ext with
          | mk r2 buf2 =>
            rw [hrec] at h
            cases r2 with
            | error e =>
              simp at h
              obtain ⟨h1, h2⟩ := h
              subst h2
              exact (ih buf hrest).2 e buf2 hrec
            | ok locs2 => simp at h

/-- The per-locale loading loop of the flat branch of
`LocalesOrNamespaces::new` restores the buffer on success and leaves it
empty on failure. -/
theorem flatLoadLoop_buffer (fs : FileSys) (names : List Key) (buf : PathB)
    (ext : CStr) (hnames : ∀ k ∈ names, singleComp k.name) :
    (∀ locs buf', flatLoadLoop fs names buf ext = (.ok locs, buf') →
      buf' = buf)
  ∧ (∀ e buf', flatLoadLoop fs names buf ext = (.error e, buf') →
      buf' = []) := by
  induction names generalizing buf with
  | nil =>
    refine ⟨?_, ?_⟩ <;> intro x buf' h <;> simp [flatLoadLoop] at h
    exact h.2.symm
  | cons locale rest ih =>
    have hl := hnames locale (List.mem_cons_self _ _)
    have hrest : ∀ k ∈ rest, singleComp k.name :=
      fun k hk => hnames k (List.mem_cons_of_mem _ hk)
    have hbuf1 : setExtension (pathPush buf locale.name) ext
        = buf ++ [fileStem locale.name ++ '.' :: ext] := by
      rw [pathPush_single _ _ hl, setExtension_concat]
    have hpop : pathPop (buf ++ [fileStem locale.name ++ '.' :: ext]) = buf := by
      simp [pathPop]
    refine ⟨?_, ?_⟩ <;> intro x buf' h <;>
      simp only [flatLoadLoop, Locale.new, hbuf1] at h
    · cases hf : lookupFile fs (buf ++ [fileStem locale.name ++ '.' :: ext]) with
      | none => rw [hf] at h; simp at h
      | some r =>
        rw [hf] at h
        cases r with
        | error e => simp at h
        | ok keys =>
          simp only at h
          rw [hpop] at h
          cases hrec : flatLoadLoop fs rest buf ext with
          | mk r2 buf2 =>
            rw [hrec] at h
            cases r2 with
            | error e => simp at h
            | ok locs2 =>
              simp at h
              obtain ⟨h1, h2⟩ := h
              subst h2
              exact (ih buf hrest).1 locs2 buf2 hrec
    · cases hf : lookupFile fs (buf ++ [fileStem locale.name ++ '.' :: ext]) with
      | none => rw [hf] at h; simp at h; exact h.2
      | some r =>
        rw [hf] at h
        cases r with
        | error e => simp at h; exact h.2
        | ok keys =>
          simp only at h
          rw [hpop] at h
          cases hrec : flatLoadLoop fs rest buf ext with
          | mk r2 buf2 =>
            rw [hrec] at h
            cases r2 with
            | error e =>
              simp at h
              obtain ⟨h1, h2⟩ := h
              subst h2
              exact (ih buf hrest).2 e buf2 hrec
            | ok locs2 => simp at h

/-! ## Claim theorems -/

/-- C1 (failing-input evaluation): merging a locale that declares one key
the schema lacks returns without error, but with the `KeyPath` cursor
extended by the surplus key instead of restored to its original contents —
the reverse pass of `Locale::merge` (lines 218–226) pushes the surplus key
and never pops it, so a later locale's merge in the same scope sees a
modified cursor. -/
theorem C1_keypath_cursor_not_restored :
    (Locale.merge (.mk kFr kFr [(kA, .vLeaf none)]) [] enName kFr
        (KeyPath.new none)).2.2.2.1 = ⟨none, [kA]⟩
  ∧ (Locale.merge (.mk kFr kFr [(kA, .vLeaf none)]) [] enName kFr
        (KeyPath.new none)).1 = none
  ∧ (⟨none, [kA]⟩ : KeyPath) ≠ KeyPath.new none := by
  refine ⟨?_, ?_, by decide⟩ <;>
    simp [Locale.merge, mergeForward, mergeReverse, lookupAssoc,
      KeyPath.push_key, KeyPath.new]

/-- C3: merging any non-default locale against the already-built schema
never changes the schema's key set, never changes any entry's
leaf-versus-subtree classification, and never adds an interpolation-key
requirement: the schema's shape (key list, classification, and leaf
interpolation-key sets, at every nesting level) after `Locale.merge` equals
its shape before, so the schema's shape remains the one built from the
default locale alone. -/
theorem C3_merge_never_changes_schema_shape (self : Locale)
    (schema : BuildersKeysInner) (dl : CStr) (tl : Key) (kp : KeyPath) :
    schemaShape (Locale.merge self schema dl tl kp).2.2.1 = schemaShape schema
  ∧ (Locale.merge self schema dl tl kp).2.2.1.map Prod.fst
      = schema.map Prod.fst := by
  have h := localeMergeShape self schema dl tl kp
  refine ⟨h, ?_⟩
  have h2 := congrArg (List.map Prod.fst) h
  rwa [schemaShape_keys, schemaShape_keys] at h2

/-- C5 (failing-input evaluation): the result of merging one locale against
the schema is NOT the same for every iteration order of the locale's keys
in the reverse pass: two merges of the same key map listed in the two
possible orders emit different `SurplusKey` warning sets, because each
surplus key stays on the `KeyPath` when the next one is pushed. -/
theorem C5_merge_result_depends_on_iteration_order :
    (Locale.merge (.mk kFr kFr [(kA, .vLeaf none), (kB, .vLeaf none)]) []
        enName kFr (KeyPath.new none)).2.2.2.2
      = [Warning.surplusKey kFr ⟨none, [kA]⟩,
         Warning.surplusKey kFr ⟨none, [kA, kB]⟩]
  ∧ (Locale.merge (.mk kFr kFr [(kB, .vLeaf none), (kA, .vLeaf none)]) []
        enName kFr (KeyPath.new none)).2.2.2.2
      = [Warning.surplusKey kFr ⟨none, [kB]⟩,
         Warning.surplusKey kFr ⟨none, [kB, kA]⟩]
  ∧ Warning.surplusKey kFr ⟨none, [kA]⟩ ∉
      [Warning.surplusKey kFr ⟨none, [kB]⟩,
       Warning.surplusKey kFr ⟨none, [kB, kA]⟩] := by
  refine ⟨?_, ?_, by decide⟩ <;>
    simp [Locale.merge, mergeForward, mergeReverse, lookupAssoc,
      KeyPath.push_key, KeyPath.new, kA, kB]

/-- C6 (failing-input evaluation): with two surplus keys, the merge still
raises no error and emits one `SurplusKey` warning per surplus key, but the
second warning's `KeyPath` is `[a, b]` instead of `[b]` — no warning for
the pair (locale, `[b]`) is ever emitted — because the reverse pass never
pops the previously pushed surplus key. -/
theorem C6_second_surplus_warning_has_wrong_path :
    (Locale.merge (.mk kDe kDe [(kA, .vLeaf none), (kB, .vLeaf none)]) []
        enName kDe (KeyPath.new none)).1 = none
  ∧ (Locale.merge (.mk kDe kDe [(kA, .vLeaf none), (kB, .vLeaf none)]) []
        enName kDe (KeyPath.new none)).2.2.2.2
      = [Warning.surplusKey kDe ⟨none, [kA]⟩,
         Warning.surplusKey kDe ⟨none, [kA, kB]⟩]
  ∧ Warning.surplusKey kDe ⟨none, [kB]⟩ ∉
      [Warning.surplusKey kDe ⟨none, [kA]⟩,
       Warning.surplusKey kDe ⟨none, [kA, kB]⟩] := by
  refine ⟨?_, ?_, by decide⟩ <;>
    simp [Locale.merge, mergeForward, mergeReverse, lookupAssoc,
      KeyPath.push_key, KeyPath.new, kA, kB]

/-- C7 (failing-input evaluation): when a schema key the locale lacks is
processed after a schema key whose subtree merge found a surplus key, the
`MissingKey` warning is emitted with `KeyPath` `[k1, k2]` instead of `[k2]`
— the surplus key pushed (and never popped) inside the nested merge is
popped in place of `k1` by the forward pass, corrupting the cursor for the
remaining schema keys. -/
theorem C7_missing_key_warning_has_wrong_path :
    (Locale.merge
        (.mk kFr kFr [(k1, .vSubkeys
          (.mk kFr kFr [(kC, .vLeaf none), (kS, .vLeaf none)]))])
        [(k1, .subkeys [.mk kEn kEn [(kC, .vLeaf none)]]
            [(kC, .value none)]),
         (k2, .value none)]
        enName kFr (KeyPath.new none)).1 = none
  ∧ (Locale.merge
        (.mk kFr kFr [(k1, .vSubkeys
          (.mk kFr kFr [(kC, .vLeaf none), (kS, .vLeaf none)]))])
        [(k1, .subkeys [.mk kEn kEn [(kC, .vLeaf none)]]
            [(kC, .value none)]),
         (k2, .value none)]
        enName kFr (KeyPath.new none)).2.2.2.2
      = [Warning.surplusKey kFr ⟨none, [k1, kS]⟩,
         Warning.missingKey kFr ⟨none, [k1, k2]⟩]
  ∧ Warning.missingKey kFr ⟨none, [k2]⟩ ∉
      [Warning.surplusKey kFr ⟨none, [k1, kS]⟩,
       Warning.missingKey kFr ⟨none, [k1, k2]⟩] := by
  refine ⟨?_, ?_, by decide⟩ <;>
    simp [Locale.merge, mergeForward, mergeReverse, ParsedValue.merge,
      lookupAssoc, updateAssoc, KeyPath.push_key, KeyPath.pop_key,
      KeyPath.new, k1, k2, kC, kS, kFr, kEn, Locale.name]

/-- C2 (counterexample): a default locale whose only inherit-from-default
marker sits at depth 2 — inside a nested subtree, reachable by
`get_value_at [k1, k2]` — is NOT rejected: `check_locales_inner` succeeds
and produces a schema (classifying the marker as a leaf), because the scan
of lines 239–244 visits only the default locale's top-level entries. -/
theorem C2_counterexample_nested_marker_not_detected :
    (Locale.mk kEn kEn
        [(k1, .vSubkeys (.mk kEn kEn [(k2, .vDefault)]))]).get_value_at
      [k1, k2] = some .vDefault
  ∧ Locale.check_locales_inner
      [.mk kEn kEn [(k1, .vSubkeys (.mk kEn kEn [(k2, .vDefault)]))]] none
      = some (.ok [(k1, .subkeys [.mk kEn kEn [(k2, .vDefault)]]
          [(k2, .value none)])], []) := by
  constructor
  · simp [Locale.get_value_at, lookupAssoc, Locale.keys]
  · simp [Locale.check_locales_inner, checkLocalesGo, checkLocalesLoop,
      findDefaultKey, Locale.make_builder_keys, makeKeysList,
      ParsedValue.make_locale_value, ParsedValue.reduce, KeyPath.new,
      Locale.keys, Locale.name]

/-- C2 (amended): for every default locale containing an explicit
inherit-from-default marker among its TOP-LEVEL entries,
`check_locales_inner` aborts with `ExplicitDefaultInDefault` carrying the
`KeyPath` of an offending top-level entry and no schema is produced;
markers nested inside subtrees are not detected. -/
theorem C2_top_level_marker_aborts (d : Locale) (rest : List Locale)
    (ns : Option Key) (k : Key) (h : (k, ParsedValue.vDefault) ∈ d.keys) :
    ∃ k', (k', ParsedValue.vDefault) ∈ d.keys ∧
      Locale.check_locales_inner (d :: rest) ns
        = some (.error (.explicitDefaultInDefault ⟨ns, [k']⟩), []) := by
  have hs := findDefaultKey_isSome d.keys k h
  cases hfd : findDefaultKey d.keys with
  | none => rw [hfd] at hs; simp at hs
  | some k' =>
    refine ⟨k', findDefaultKey_mem _ _ hfd, ?_⟩
    simp [Locale.check_locales_inner, checkLocalesGo, hfd, KeyPath.new,
      KeyPath.push_key]

/-- Witness for the amended C2 at a concrete input: a top-level marker at
key `a` aborts with the `KeyPath` `[a]`. -/
theorem C2_top_level_marker_aborts_witness :
    ∃ k', (k', ParsedValue.vDefault) ∈
        (Locale.mk kEn kEn [(kA, ParsedValue.vDefault)]).keys ∧
      Locale.check_locales_inner
          [Locale.mk kEn kEn [(kA, ParsedValue.vDefault)]] none
        = some (.error (.explicitDefaultInDefault ⟨none, [k']⟩), []) :=
  C2_top_level_marker_aborts (Locale.mk kEn kEn [(kA, .vDefault)]) [] none kA
    (by simp [Locale.keys])

/-- C4 (counterexample): a failing flat-mode load does NOT restore the
shared path buffer: with an empty file system the whole load fails with
`LocaleFileNotFound` carrying the attempted path, and the buffer ends up
EMPTY (`std::mem::take`) — not equal to its pre-call value
`[b, loc]`. -/
theorem C4_counterexample_buffer_emptied_on_error :
    LocalesOrNamespaces.new [] [['b']] ⟨[kEn], none, ['l', 'o', 'c']⟩
        FILE_FORMAT
      = (.error (.localeFileNotFound
          [['b'], ['l', 'o', 'c'], ['e', 'n', '.', 'j', 's', 'o', 'n']]), [])
  ∧ ([] : PathB) ≠ [['b'], ['l', 'o', 'c']] := by
  exact ⟨rfl, by decide⟩

/-- C4 (amended): every locale-file load, flat or namespaced, restores the
shared path buffer to its exact pre-call value when it SUCCEEDS (push /
set-extension / pop discipline), provided the locale and namespace names
are single normal path components; when a load FAILS, the attempted path is
moved into the error (`std::mem::take`) and the buffer is left empty, and
the failure aborts the whole loading loop immediately, so no sibling load
ever observes the buffer. -/
theorem C4_buffer_restored_on_success_emptied_on_error
    (fs : FileSys) (key : Key) (names : List Key) (buf : PathB) (ext : CStr)
    (hkey : singleComp key.name)
    (hnames : ∀ k ∈ names, singleComp k.name) :
    ((∀ locs buf', namespaceLoadLoop fs key names buf ext = (.ok locs, buf')
        → buf' = buf)
      ∧ (∀ e buf', namespaceLoadLoop fs key names buf ext = (.error e, buf')
        → buf' = []))
  ∧ ((∀ locs buf', flatLoadLoop fs names buf ext = (.ok locs, buf')
        → buf' = buf)
      ∧ (∀ e buf', flatLoadLoop fs names buf ext = (.error e, buf')
        → buf' = [])) :=
  ⟨namespaceLoadLoop_buffer fs key names buf ext hkey hnames,
   flatLoadLoop_buffer fs names buf ext hnames⟩

/-- Witness for the amended C4 at a concrete input: a successful flat load
of locale `en` from a one-file file system restores the buffer `[b]`. -/
theorem C4_buffer_restored_witness :
    (flatLoadLoop [([['b'], ['e', 'n', '.', 'j', 's', 'o', 'n']],
        Except.ok [])] [kEn] [['b']] FILE_FORMAT).2 = [['b']] :=
  (C4_buffer_restored_on_success_emptied_on_error
      [([['b'], ['e', 'n', '.', 'j', 's', 'o', 'n']], Except.ok [])]
      kEn [kEn] [['b']] FILE_FORMAT (by decide) (by decide)).2.1
    [Locale.mk kEn kEn []] _ rfl

/-- C8 (counterexample): for a locale name containing a `'.'`
(`en.US`), the derived flat-mode file path is NOT `{base}/{locale}.{ext}`:
`set_extension` REPLACES the name's trailing `US` by the format extension,
yielding `i18n/en.json` instead of the claimed `i18n/en.US.json`. -/
theorem C8_counterexample_dotted_locale_name :
    renderPath (flatFilePath [['i', '1', '8', 'n']]
        ['e', 'n', '.', 'U', 'S'] FILE_FORMAT)
      = ['i', '1', '8', 'n', '/', 'e', 'n', '.', 'j', 's', 'o', 'n']
  ∧ specFlatPath [['i', '1', '8', 'n']] ['e', 'n', '.', 'U', 'S'] FILE_FORMAT
      = ['i', '1', '8', 'n', '/', 'e', 'n', '.', 'U', 'S', '.', 'j', 's',
         'o', 'n']
  ∧ renderPath (flatFilePath [['i', '1', '8', 'n']]
        ['e', 'n', '.', 'U', 'S'] FILE_FORMAT)
      ≠ specFlatPath [['i', '1', '8', 'n']] ['e', 'n', '.', 'U', 'S']
          FILE_FORMAT := by
  exact ⟨rfl, rfl, by decide⟩

/-- C8 (amended): for every non-empty base path and for locale and
namespace names that are single normal path components containing no `'.'`,
the derived file path renders exactly as `{base}/{locale}.{ext}` in flat
mode and `{base}/{locale}/{namespace}.{ext}` in namespaced mode; a `'.'` in
the final component makes `set_extension` replace the portion after the
last `'.'` instead of appending. -/
theorem C8_derived_paths_for_clean_names (base : PathB)
    (locale nsName ext : CStr) (hb : base ≠ [])
    (hl1 : locale ≠ []) (hl2 : '/' ∉ locale) (hl3 : '.' ∉ locale)
    (hn1 : nsName ≠ []) (hn2 : '/' ∉ nsName) (hn3 : '.' ∉ nsName) :
    renderPath (flatFilePath base locale ext) = specFlatPath base locale ext
  ∧ renderPath (nsFilePath base locale nsName ext)
      = specNsPath base locale nsName ext := by
  have hpl : pathPush base locale = base ++ [locale] :=
    pathPush_single _ _ ⟨hl1, hl2⟩
  constructor
  · rw [flatFilePath, hpl, setExtension_concat, fileStem_no_dot _ hl3,
      renderPath_concat _ _ hb]
    simp [specFlatPath]
  · have hpn : pathPush (base ++ [locale]) nsName
        = (base ++ [locale]) ++ [nsName] := pathPush_single _ _ ⟨hn1, hn2⟩
    rw [nsFilePath, hpl, hpn, setExtension_concat, fileStem_no_dot _ hn3,
      renderPath_concat _ _ (by simp), renderPath_concat _ _ hb]
    simp [specNsPath]

/-- Witness for the amended C8 at a concrete input: locale `fr`, namespace
`ns`, base `[b]`. -/
theorem C8_derived_paths_witness :
    renderPath (flatFilePath [['b']] ['f', 'r'] FILE_FORMAT)
      = specFlatPath [['b']] ['f', 'r'] FILE_FORMAT
  ∧ renderPath (nsFilePath [['b']] ['f', 'r'] ['n', 's'] FILE_FORMAT)
      = specNsPath [['b']] ['f', 'r'] ['n', 's'] FILE_FORMAT :=
  C8_derived_paths_for_clean_names [['b']] ['f', 'r'] ['n', 's'] FILE_FORMAT
    (by decide) (by decide) (by decide) (by decide) (by decide) (by decide)
    (by decide)

/-- C9: `check_locales_inner` takes the first locale of its slice as the
default unconditionally: on the empty slice the `unwrap` panics (modelled
as `none`), and on every non-empty slice — the precondition of at least one
configured locale — a result is returned, so the panic branch is
unreachable. -/
theorem C9_nonempty_slice_precondition :
    (∀ ns, Locale.check_locales_inner [] ns = none)
  ∧ ∀ (d : Locale) (rest : List Locale) (ns : Option Key),
      (Locale.check_locales_inner (d :: rest) ns).isSome := by
  exact ⟨fun ns => rfl, fun d rest ns => rfl⟩

/-- C10: `get_value_at` is total and signals every lookup failure with
`none`: `Locale.get_value_at` returns `none` on the empty path and on any
path descending through a value that is not a subtree, and
`LocalesOrNamespaces.get_value_at` returns `none` when the path's namespace
presence does not match the container's mode, and when the named locale or
namespace is absent. -/
theorem C10_get_value_at_total_none_cases :
    (∀ l : Locale, l.get_value_at [] = none)
  ∧ (∀ (l : Locale) (k : Key) (rest : List Key) (v : ParsedValue),
      rest ≠ [] → lookupAssoc l.keys k = some v →
      (∀ sub, v ≠ ParsedValue.vSubkeys sub) →
      l.get_value_at (k :: rest) = none)
  ∧ (∀ (nss : List Namespace) (tl : Key) (p : List Key),
      (LocalesOrNamespaces.nameSpaces nss).get_value_at tl ⟨none, p⟩ = none)
  ∧ (∀ (ls : List Locale) (tl nsk : Key) (p : List Key),
      (LocalesOrNamespaces.locales ls).get_value_at tl ⟨some nsk, p⟩ = none)
  ∧ (∀ (ls : List Locale) (tl : Key) (p : List Key),
      ls.find? (fun l => l.name = tl) = none →
      (LocalesOrNamespaces.locales ls).get_value_at tl ⟨none, p⟩ = none)
  ∧ (∀ (nss : List Namespace) (tl nsk : Key) (p : List Key),
      nss.find? (fun n => n.key = nsk) = none →
      (LocalesOrNamespaces.nameSpaces nss).get_value_at tl ⟨some nsk, p⟩
        = none)
  ∧ (∀ (nss : List Namespace) (n : Namespace) (tl nsk : Key) (p : List Key),
      nss.find? (fun x => x.key = nsk) = some n →
      n.locales.find? (fun l => l.name = tl) = none →
      (LocalesOrNamespaces.nameSpaces nss).get_value_at tl ⟨some nsk, p⟩
        = none) := by
  refine ⟨?_, ?_, ?_, ?_, ?_, ?_, ?_⟩
  · intro l; cases l; rfl
  · intro l k rest v hrest hl hv
    cases rest with
    | nil => exact absurd rfl hrest
    | cons r rs =>
      cases v with
      | vSubkeys sub => exact absurd rfl (hv sub)
      | vDefault => simp [Locale.get_value_at, hl]
      | vLeaf i => simp [Locale.get_value_at, hl]
  · intro nss tl p
    simp [LocalesOrNamespaces.get_value_at]
  · intro ls tl nsk p
    simp [LocalesOrNamespaces.get_value_at]
  · intro ls tl p h
    simp [LocalesOrNamespaces.get_value_at, h]
  · intro nss tl nsk p h
    simp [LocalesOrNamespaces.get_value_at, h]
  · intro nss n tl nsk p h1 h2
    simp [LocalesOrNamespaces.get_value_at, h1, h2]

/-- Witness for C10 at concrete inputs: a path descending through a leaf
yields `none`, and a namespaced path against flat locales yields `none`. -/
theorem C10_get_value_at_witness :
    (Locale.mk kEn kEn [(kA, ParsedValue.vLeaf none)]).get_value_at
        [kA, kB] = none
  ∧ (LocalesOrNamespaces.locales
        [Locale.mk kEn kEn [(kA, ParsedValue.vLeaf none)]]).get_value_at
      kEn ⟨some kC, [kA]⟩ = none :=
  ⟨C10_get_value_at_total_none_cases.2.1
      (Locale.mk kEn kEn [(kA, ParsedValue.vLeaf none)]) kA [kB]
      (ParsedValue.vLeaf none) (by simp)
      (by simp [Locale.keys, lookupAssoc]) (by simp),
   C10_get_value_at_total_none_cases.2.2.2.1
      [Locale.mk kEn kEn [(kA, ParsedValue.vLeaf none)]] kEn kC [kA]⟩

end LeptosI18n
